import Mathlib

/-!
Verification of the angle/azimuth value type of the geotools repository
(module angle.py).  The Python module stores every angle as a radian value,
either a float scalar or a float array, and re-applies a domain constraint
on every construction.  Floating-point numbers are modelled as real
numbers; the numpy remainder, floor, sign, trigonometric and comparison
functions are modelled by their exact real counterparts, and numpy
broadcasting of binary operations over scalar/array operands is modelled
explicitly on a scalar-or-list value type.
-/

noncomputable section

open Real

/-- Model of numpy remainder: x - y * floor (x / y), the remainder carrying
the sign of the divisor.  The divisor is 2*pi everywhere in the source. -/
def npRemainder (x y : ℝ) : ℝ := x - y * ⌊x / y⌋

/-- Model of Angle.constrain360: reduce the stored radian value into the
domain [0, 2*pi) using numpy remainder with divisor 2*pi. -/
def constrain360 (x : ℝ) : ℝ := npRemainder x (2 * π)

/-- Model of Angle.constrain180: first reduce with constrain360, then
subtract 2*pi from any value still exceeding pi, landing in (-pi, pi]. -/
def constrain180 (x : ℝ) : ℝ :=
  if constrain360 x > π then constrain360 x - 2 * π else constrain360 x

/-- The two concrete classes of the module: Angle and its subclass Azimuth. -/
inductive AngleKind : Type
  | angle : AngleKind
  | azimuth : AngleKind
deriving DecidableEq

/-- The stored value of an instance: a float scalar or a float array. -/
inductive Val : Type
  | scalar (x : ℝ) : Val
  | array (xs : List ℝ) : Val

/-- Element-wise application of a unary numpy ufunc to a stored value. -/
def Val.map (f : ℝ → ℝ) : Val → Val
  | .scalar x => .scalar (f x)
  | .array xs => .array (xs.map f)

/-- Element-wise application of a binary numpy ufunc with broadcasting
between scalar and array operands. -/
def Val.map2 (f : ℝ → ℝ → ℝ) : Val → Val → Val
  | .scalar x, .scalar y => .scalar (f x y)
  | .scalar x, .array ys => .array (ys.map (fun y => f x y))
  | .array xs, .scalar y => .array (xs.map (fun x => f x y))
  | .array xs, .array ys => .array (List.zipWith f xs ys)

/-- A predicate holding of every element of a stored value. -/
def Val.Forall (p : ℝ → Prop) : Val → Prop
  | .scalar x => p x
  | .array xs => ∀ x ∈ xs, p x

/-- The in-place constraint applied by the constructor of each class:
Angle.__init__ calls constrain180; Azimuth.__init__ calls Angle.__init__
and then constrain360 on the already constrained value. -/
def constrainKind : AngleKind → ℝ → ℝ
  | .angle, x => constrain180 x
  | .azimuth, x => constrain360 (constrain180 x)

/-- The canonical domain of each class: (-pi, pi] for Angle and
[0, 2*pi) for Azimuth. -/
def inDomain : AngleKind → ℝ → Prop
  | .angle, x => x ∈ Set.Ioc (-π) π
  | .azimuth, x => x ∈ Set.Ico 0 (2 * π)

/-- An Angle or Azimuth instance: the concrete class together with the
hidden radian value self.__val. -/
structure AngleObj : Type where
  kind : AngleKind
  val : Val

/-- Model of self.__class__(raw): construct an instance of the given
concrete class from a raw radian value, applying the domain constraint of
that class element-wise, exactly as the two __init__ methods do. -/
def mkAngleObj (k : AngleKind) (v : Val) : AngleObj :=
  ⟨k, v.map (constrainKind k)⟩

/-- Model of numpy radians (the deg2rad conversion of the kernel). -/
def deg2rad (x : ℝ) : ℝ := x * (π / 180)

/-- Model of numpy degrees (the deg() accessor applied to one element). -/
def rad2deg (x : ℝ) : ℝ := x * (180 / π)

/-- Angle(val) with format rad. -/
def Angle.ofRad (v : Val) : AngleObj := mkAngleObj .angle v

/-- Azimuth(val) with format rad. -/
def Azimuth.ofRad (v : Val) : AngleObj := mkAngleObj .azimuth v

/-- Angle(val, deg): the degree input is converted by numpy radians and
then constrained. -/
def Angle.ofDeg (v : Val) : AngleObj := mkAngleObj .angle (v.map deg2rad)

/-- Azimuth(val, deg). -/
def Azimuth.ofDeg (v : Val) : AngleObj := mkAngleObj .azimuth (v.map deg2rad)

/-- Model of numpy sign on a real input. -/
def npSign (x : ℝ) : ℝ := if x < 0 then -1 else if x = 0 then 0 else 1

/-- Model of the static method Angle.dms2rad on a (d, m, s) tuple: the sign
is taken from the degree component alone, the magnitude is
abs d + m/60 + s/3600 degrees, scaled to radians. -/
def dms2rad (t : ℝ × ℝ × ℝ) : ℝ :=
  npSign t.1 * (|t.1| + t.2.1 / 60 + t.2.2 / 3600) * (π / 180)

/-- Model of the static method Angle.dm2rad: delegates to dms2rad with the
seconds fixed at 0. -/
def dm2rad (t : ℝ × ℝ) : ℝ := dms2rad (t.1, t.2, 0)

/-- Angle(val, dms) on a scalar (d, m, s) tuple. -/
def Angle.ofDms (t : ℝ × ℝ × ℝ) : AngleObj :=
  mkAngleObj .angle (.scalar (dms2rad t))

/-- Model of the method Angle.dm on one stored radian value: degree part by
numpy floor of the degree value, then decimal minutes as
abs (angle*100 - d*100) * (60/100). -/
def radToDm (v : ℝ) : ℝ × ℝ :=
  let angle := rad2deg v
  let d : ℝ := (⌊angle⌋ : ℤ)
  (d, |angle * 100 - d * 100| * (60 / 100))

/-- Model of the method Angle.dms on one stored radian value: split the
decimal minutes of dm into whole minutes (numpy floor) and seconds. -/
def radToDms (v : ℝ) : ℝ × ℝ × ℝ :=
  let d := (radToDm v).1
  let ms := (radToDm v).2
  let m : ℝ := (⌊ms⌋ : ℤ)
  (d, m, (ms - m) * 60)

/-- Model of Angle.__add__: self.__class__(self.__val + other), where other
stands for the raw value returned by the __float__ call on the right
operand.  The conversion of a cross-type operand is commented out in the
source and __coerce__ is never invoked under Python 3 semantics. -/
def opAdd (a : AngleObj) (w : Val) : AngleObj :=
  mkAngleObj a.kind (Val.map2 (fun x y => x + y) a.val w)

/-- Model of Angle.__sub__. -/
def opSub (a : AngleObj) (w : Val) : AngleObj :=
  mkAngleObj a.kind (Val.map2 (fun x y => x - y) a.val w)

/-- Model of Angle.__mul__. -/
def opMul (a : AngleObj) (w : Val) : AngleObj :=
  mkAngleObj a.kind (Val.map2 (fun x y => x * y) a.val w)

/-- Model of Angle.__truediv__ (real division; the IEEE divide-by-zero
special values are outside the real-number model). -/
def opDiv (a : AngleObj) (w : Val) : AngleObj :=
  mkAngleObj a.kind (Val.map2 (fun x y => x / y) a.val w)

/-- Model of Angle.__floordiv__: floor of the quotient. -/
def opFloordiv (a : AngleObj) (w : Val) : AngleObj :=
  mkAngleObj a.kind (Val.map2 (fun x y => ((⌊x / y⌋ : ℤ) : ℝ)) a.val w)

/-- Model of Angle.__pow__ via the real power function (the numpy nan for a
negative base with fractional exponent is outside the real model). -/
def opPow (a : AngleObj) (w : Val) : AngleObj :=
  mkAngleObj a.kind (Val.map2 (fun x y => Real.rpow x y) a.val w)

/-- Model of Angle.__mod__ via numpy remainder. -/
def opMod (a : AngleObj) (w : Val) : AngleObj :=
  mkAngleObj a.kind (Val.map2 npRemainder a.val w)

/-- Model of Angle.__neg__. -/
def opNeg (a : AngleObj) : AngleObj :=
  mkAngleObj a.kind (a.val.map (fun x => -x))

/-- Model of Angle.__pos__. -/
def opPos (a : AngleObj) : AngleObj :=
  mkAngleObj a.kind (a.val.map (fun x => x))

/-- Model of Angle.__abs__ (also reached through numpy abs on an instance). -/
def objAbs (a : AngleObj) : AngleObj :=
  mkAngleObj a.kind (a.val.map (fun x => |x|))

/-- Binary operator applied to two instances: the right operand contributes
the raw radian value returned by its __float__ method, with no cross-type
conversion (the conversion lines in the operators are commented out). -/
def objAdd (a b : AngleObj) : AngleObj := opAdd a b.val

/-- Model of instance subtraction, as used by get_enclosed_angle. -/
def objSub (a b : AngleObj) : AngleObj := opSub a b.val

/-- Model of Angle.get_complement: self.__class__(pi/2 - self.__val). -/
def get_complementObj (a : AngleObj) : AngleObj :=
  mkAngleObj a.kind (a.val.map (fun x => π / 2 - x))

/-- Model of to_azimuth: the identity on an Azimuth; on an Angle it
constructs an Azimuth from the radian value of the Angle complement. -/
def to_azimuthObj (a : AngleObj) : AngleObj :=
  match a.kind with
  | .azimuth => a
  | .angle => mkAngleObj .azimuth (get_complementObj a).val

/-- Model of to_angle: the identity on an Angle; on an Azimuth it
constructs an Angle from the radian value of the Azimuth complement. -/
def to_angleObj (a : AngleObj) : AngleObj :=
  match a.kind with
  | .angle => a
  | .azimuth => mkAngleObj .angle (get_complementObj a).val

/-- Model of to_other_angle_type: the cross-type conversion. -/
def to_other_angle_typeObj (a : AngleObj) : AngleObj :=
  match a.kind with
  | .angle => to_azimuthObj a
  | .azimuth => to_angleObj a

/-- Model of numpy isinf.  Every value of the real-number model is finite,
so the predicate never holds; this is the value the source relies on when
it returns np.isinf(self.__val) for a cross-type equality test. -/
def npIsinf (_ : ℝ) : Prop := False

/-- Model of numpy isfinite on the real-number model. -/
def npIsfinite (_ : ℝ) : Prop := True

/-- Model of numpy isclose with the default tolerances rtol = 1e-5 and
atol = 1e-8: abs (a - b) is at most atol + rtol * abs b. -/
def npIsclose (a b : ℝ) : Prop :=
  |a - b| ≤ 1 / 100000000 + (1 / 100000) * |b|

/-- A boolean result of a comparison ufunc: one truth value per element. -/
inductive BVal : Type
  | scalarB (p : Prop) : BVal
  | arrayB (ps : List Prop) : BVal

/-- Every component of the comparison result holds. -/
def BVal.AllTrue : BVal → Prop
  | .scalarB p => p
  | .arrayB ps => ∀ p ∈ ps, p

/-- No component of the comparison result holds. -/
def BVal.AllFalse : BVal → Prop
  | .scalarB p => ¬p
  | .arrayB ps => ∀ p ∈ ps, ¬p

/-- Element-wise unary predicate ufunc on a stored value. -/
def Val.mapP (f : ℝ → Prop) : Val → BVal
  | .scalar x => .scalarB (f x)
  | .array xs => .arrayB (xs.map f)

/-- Element-wise binary predicate ufunc with scalar/array broadcasting. -/
def Val.map2P (f : ℝ → ℝ → Prop) : Val → Val → BVal
  | .scalar x, .scalar y => .scalarB (f x y)
  | .scalar x, .array ys => .arrayB (ys.map (fun y => f x y))
  | .array xs, .scalar y => .arrayB (xs.map (fun x => f x y))
  | .array xs, .array ys => .arrayB (List.zipWith f xs ys)

/-- Model of Angle.__eq__: a cross-type comparison returns
np.isinf(self.__val); a same-type comparison returns
np.isclose(self.__val, other.__val) element-wise. -/
def objEq (a b : AngleObj) : BVal :=
  if a.kind ≠ b.kind then a.val.mapP npIsinf
  else Val.map2P npIsclose a.val b.val

/-- Model of Angle.__ne__: a cross-type comparison returns
np.isfinite(self.__val); a same-type comparison negates isclose. -/
def objNe (a b : AngleObj) : BVal :=
  if a.kind ≠ b.kind then a.val.mapP npIsfinite
  else Val.map2P (fun x y => ¬npIsclose x y) a.val b.val

/-- The Python errors raised by the modelled methods. -/
inductive PyError : Type
  | typeError : PyError
  | indexError : PyError
  | valueError : PyError
deriving DecidableEq

/-- Model of Angle.__len__: a TypeError on a scalar instance, the element
count on an array instance. -/
def getLen (a : AngleObj) : Except PyError Nat :=
  match a.val with
  | .scalar _ => .error .typeError
  | .array xs => .ok xs.length

/-- Model of Angle.__getitem__ with an integer index.  On a scalar
instance the stored value is a numpy scalar (constrain360 always runs
numpy remainder), and indexing a numpy scalar raises IndexError (invalid
index to scalar variable); the except TypeError clause of the source does
not catch it, so the IndexError propagates.  On an array instance an
in-range index yields a fresh instance of the same concrete class built
from the selected element, and an out-of-range index raises IndexError. -/
def getItem (a : AngleObj) (i : Nat) : Except PyError AngleObj :=
  match a.val with
  | .scalar _ => .error .indexError
  | .array xs =>
      if h : i < xs.length then .ok (mkAngleObj a.kind (.scalar xs[i]))
      else .error .indexError

/-- Model of Angle.__getitem__ with a slice from s to e.  On a scalar
instance the slice index applied to the stored numpy scalar raises the
same IndexError as integer indexing, uncaught by the except TypeError
clause; on an array instance it yields a fresh instance of the same
concrete class over the selected sub-sequence. -/
def getSlice (a : AngleObj) (s e : Nat) : Except PyError AngleObj :=
  match a.val with
  | .scalar _ => .error .indexError
  | .array xs => .ok (mkAngleObj a.kind (.array ((xs.drop s).take (e - s))))

/-- Model of numpy arctan2 with the standard quadrant cases. -/
def atan2 (y x : ℝ) : ℝ :=
  if 0 < x then Real.arctan (y / x)
  else if x < 0 ∧ 0 ≤ y then Real.arctan (y / x) + π
  else if x < 0 then Real.arctan (y / x) - π
  else if 0 < y then π / 2
  else if y < 0 then -(π / 2)
  else 0

/-- Model of numpy average over a one-dimensional array: the arithmetic
mean without weights, the weighted sum divided by the weight sum with
weights. -/
def npAverage (xs : List ℝ) (w : Option (List ℝ)) : ℝ :=
  match w with
  | none => xs.sum / (xs.length : ℝ)
  | some ws => (List.zipWith (fun a b => a * b) ws xs).sum / ws.sum

/-- Model of Angle.mean: the average of the sines and the average of the
cosines of the stored values, combined by arctan2 and passed to the
constructor of the concrete class of the receiver.  On a scalar instance
numpy average is the identity (a weights array on a scalar instance raises
in numpy and is outside the modelled scope). -/
def meanObj (a : AngleObj) (w : Option (List ℝ)) : AngleObj :=
  match a.val with
  | .scalar x => mkAngleObj a.kind (.scalar (atan2 (Real.sin x) (Real.cos x)))
  | .array xs =>
      mkAngleObj a.kind
        (.scalar (atan2 (npAverage (xs.map Real.sin) w)
                        (npAverage (xs.map Real.cos) w)))

/-- Model of Angle.get_enclosed_angle: the element-wise minimum of the
absolute values of self - other and other - self (each difference being a
freshly constrained instance, and numpy abs reaching __abs__), passed to
the constructor of the concrete class of the receiver. -/
def get_enclosed_angleObj (a b : AngleObj) : AngleObj :=
  mkAngleObj a.kind
    (Val.map2 min (objAbs (objSub a b)).val (objAbs (objSub b a)).val)

/-- Model of Azimuth.toDirectionEast: on a scalar instance, return the
complement when the value exceeds pi and the instance itself otherwise; an
array instance in the if condition raises a numpy truth-value error. -/
def toDirectionEast (z : AngleObj) : Except PyError AngleObj :=
  match z.val with
  | .scalar v => .ok (if π < v then get_complementObj z else z)
  | .array _ => .error .valueError

/-- Model of the if chain of Azimuth.get_cardinal_direction on the degree
value, reproduced bound for bound from the source. -/
def get_cardinal_direction (degval : ℝ) : String :=
  if 11.25 < degval ∧ degval < 33.75 then "NNE"
  else if 33.75 ≤ degval ∧ degval ≤ 56.25 then "NE"
  else if 56.25 < degval ∧ degval < 78.75 then "ENE"
  else if 78.75 ≤ degval ∧ degval ≤ 101.25 then "E"
  else if 101.25 < degval ∧ degval < 123.75 then "ESE"
  else if 123.75 ≤ degval ∧ degval ≤ 146.25 then "SE"
  else if 146.25 < degval ∧ degval < 168.75 then "SSE"
  else if 168.75 ≤ degval ∧ degval ≤ 191.25 then "S"
  else if 191.25 < degval ∧ degval < 213.75 then "SSW"
  else if 213.75 ≤ degval ∧ degval ≤ 236.25 then "SW"
  else if 236.25 < degval ∧ degval < 258.75 then "WSW"
  else if 258.75 ≤ degval ∧ degval ≤ 291.25 then "W"
  else if 291.25 < degval ∧ degval < 303.75 then "WNW"
  else if 303.75 ≤ degval ∧ degval ≤ 326.25 then "NW"
  else if 326.25 < degval ∧ degval < 348.75 then "NNW"
  else "N"

/-- Model of Azimuth.get_cardinal_direction on an instance: the degree
value of a scalar instance is classified by the if chain; an array
instance in the if conditions raises a numpy truth-value error. -/
def getCardinal (z : AngleObj) : Except PyError String :=
  match z.val with
  | .scalar v => .ok (get_cardinal_direction (rad2deg v))
  | .array _ => .error .valueError

theorem constrain360_eq_fract (x : ℝ) :
    constrain360 x = 2 * π * Int.fract (x / (2 * π)) := by
  unfold constrain360 npRemainder Int.fract
  rw [mul_sub]
  congr 1
  rw [mul_div_cancel₀ _ Real.two_pi_pos.ne']

theorem constrain360_mem (x : ℝ) : constrain360 x ∈ Set.Ico 0 (2 * π) := by
  rw [constrain360_eq_fract]
  constructor
  · exact mul_nonneg (le_of_lt Real.two_pi_pos) (Int.fract_nonneg _)
  · nlinarith [Int.fract_lt_one (x / (2 * π)), Real.two_pi_pos,
      Int.fract_nonneg (x / (2 * π))]

theorem constrain360_eq_self {x : ℝ} (h0 : 0 ≤ x) (h1 : x < 2 * π) :
    constrain360 x = x := by
  rw [constrain360_eq_fract,
    Int.fract_eq_self.2 ⟨div_nonneg h0 (le_of_lt Real.two_pi_pos),
      (div_lt_one Real.two_pi_pos).2 h1⟩,
    mul_div_cancel₀ _ Real.two_pi_pos.ne']

theorem constrain360_add_two_pi (x : ℝ) :
    constrain360 (x + 2 * π) = constrain360 x := by
  rw [constrain360_eq_fract, constrain360_eq_fract]
  congr 1
  have h : (x + 2 * π) / (2 * π) = x / (2 * π) + ((1 : ℤ) : ℝ) := by
    push_cast
    rw [add_div, div_self Real.two_pi_pos.ne']
  rw [h, Int.fract_add_int]

theorem constrain360_sub_two_pi (x : ℝ) :
    constrain360 (x - 2 * π) = constrain360 x := by
  have h := constrain360_add_two_pi (x - 2 * π)
  rw [sub_add_cancel] at h
  exact h.symm

theorem constrain180_mem (x : ℝ) : constrain180 x ∈ Set.Ioc (-π) π := by
  unfold constrain180
  obtain ⟨h0, h1⟩ := constrain360_mem x
  by_cases h : constrain360 x > π
  · rw [if_pos h]
    constructor <;> linarith
  · rw [if_neg h]
    push_neg at h
    have hpi := Real.pi_pos
    constructor <;> linarith

theorem constrain180_eq_self {x : ℝ} (h : x ∈ Set.Ioc (-π) π) :
    constrain180 x = x := by
  obtain ⟨hl, hr⟩ := h
  have hpi := Real.pi_pos
  unfold constrain180
  rcases le_or_lt 0 x with hx | hx
  · rw [constrain360_eq_self hx (by linarith)]
    rw [if_neg (not_lt.2 hr)]
  · have hc : constrain360 x = x + 2 * π := by
      rw [← constrain360_add_two_pi x]
      exact constrain360_eq_self (by linarith) (by linarith)
    rw [hc, if_pos (by linarith)]
    ring

theorem constrainKind_azimuth (x : ℝ) :
    constrainKind .azimuth x = constrain360 x := by
  show constrain360 (constrain180 x) = constrain360 x
  obtain ⟨h0, h1⟩ := constrain360_mem x
  unfold constrain180
  by_cases h : constrain360 x > π
  · rw [if_pos h, constrain360_sub_two_pi, constrain360_eq_self h0 h1]
  · rw [if_neg h, constrain360_eq_self h0 h1]

theorem constrainKind_mem (k : AngleKind) (x : ℝ) :
    inDomain k (constrainKind k x) := by
  cases k with
  | angle => exact constrain180_mem x
  | azimuth =>
      rw [constrainKind_azimuth]
      exact constrain360_mem x

theorem constrainKind_eq_self {k : AngleKind} {x : ℝ} (h : inDomain k x) :
    constrainKind k x = x := by
  cases k with
  | angle => exact constrain180_eq_self h
  | azimuth =>
      rw [constrainKind_azimuth]
      exact constrain360_eq_self h.1 h.2

theorem Val.Forall_map {p : ℝ → Prop} {f : ℝ → ℝ} (h : ∀ x, p (f x))
    (v : Val) : (v.map f).Forall p := by
  cases v with
  | scalar x => exact h x
  | array xs =>
      show ∀ y ∈ xs.map f, p y
      intro y hy
      rcases List.mem_map.1 hy with ⟨x, _, rfl⟩
      exact h x

theorem mkAngleObj_forall (k : AngleKind) (v : Val) :
    (mkAngleObj k v).val.Forall (inDomain k) :=
  Val.Forall_map (constrainKind_mem k) v

theorem list_map_id_of {f : ℝ → ℝ} :
    ∀ xs : List ℝ, (∀ x ∈ xs, f x = x) → xs.map f = xs
  | [], _ => rfl
  | x :: t, h => by
      have hx : f x = x := h x (by simp)
      have ht : t.map f = t := list_map_id_of t fun y hy => h y (by simp [hy])
      simp [hx, ht]

theorem Val.map_eq_self {f : ℝ → ℝ} {v : Val}
    (h : v.Forall (fun x => f x = x)) : v.map f = v := by
  cases v with
  | scalar x => exact congrArg Val.scalar h
  | array xs => exact congrArg Val.array (list_map_id_of xs h)

theorem mkAngleObj_of_forall {k : AngleKind} {v : Val}
    (h : v.Forall (inDomain k)) : mkAngleObj k v = ⟨k, v⟩ := by
  unfold mkAngleObj
  congr 1
  exact Val.map_eq_self (by
    cases v with
    | scalar x => exact constrainKind_eq_self h
    | array xs => exact fun x hx => constrainKind_eq_self (h x hx))

/-- Claim C1: the stored radian value of an Angle lies in (-pi, pi] after
construction and after every constrain180 call, and the stored radian
value of an Azimuth lies in [0, 2*pi) after construction and after each
arithmetic operation (addition, subtraction, multiplication, division,
floor division, power, modulo, unary minus, unary plus, absolute value),
since every operation funnels its result through the constructor of the
concrete class of the receiver. -/
theorem c1_domain_invariant :
    (∀ x : ℝ, constrain180 x ∈ Set.Ioc (-π) π)
    ∧ (∀ v : Val, (mkAngleObj .angle v).val.Forall (inDomain .angle))
    ∧ (∀ v : Val, (mkAngleObj .azimuth v).val.Forall (inDomain .azimuth))
    ∧ (∀ (a : AngleObj) (w : Val),
        (opAdd a w).val.Forall (inDomain a.kind)
        ∧ (opSub a w).val.Forall (inDomain a.kind)
        ∧ (opMul a w).val.Forall (inDomain a.kind)
        ∧ (opDiv a w).val.Forall (inDomain a.kind)
        ∧ (opFloordiv a w).val.Forall (inDomain a.kind)
        ∧ (opPow a w).val.Forall (inDomain a.kind)
        ∧ (opMod a w).val.Forall (inDomain a.kind))
    ∧ (∀ a : AngleObj,
        (opNeg a).val.Forall (inDomain a.kind)
        ∧ (opPos a).val.Forall (inDomain a.kind)
        ∧ (objAbs a).val.Forall (inDomain a.kind)) := by
  refine ⟨fun x => constrain180_mem x, fun v => mkAngleObj_forall _ _,
    fun v => mkAngleObj_forall _ _, fun a w => ?_, fun a => ?_⟩
  · exact ⟨mkAngleObj_forall _ _, mkAngleObj_forall _ _, mkAngleObj_forall _ _,
      mkAngleObj_forall _ _, mkAngleObj_forall _ _, mkAngleObj_forall _ _,
      mkAngleObj_forall _ _⟩
  · exact ⟨mkAngleObj_forall _ _, mkAngleObj_forall _ _, mkAngleObj_forall _ _⟩

/-- Claim C3: a cross-type equality comparison evaluates false in every
component and a cross-type inequality comparison evaluates true in every
component, whatever values the operands hold; for scalar operands of the
same concrete class, equality holds exactly when the radian values are
close under the numpy default tolerance, which is satisfiable by values
that are not bit-identical. -/
theorem c3_equality_policy :
    (∀ a b : AngleObj, a.kind ≠ b.kind →
      (objEq a b).AllFalse ∧ (objNe a b).AllTrue)
    ∧ (∀ (a b : AngleObj) (x y : ℝ), a.kind = b.kind → a.val = .scalar x →
        b.val = .scalar y →
        objEq a b = .scalarB (npIsclose x y)
        ∧ (npIsclose x y ↔ |x - y| ≤ 1 / 100000000 + (1 / 100000) * |y|))
    ∧ (npIsclose 0 (1 / 1000000000) ∧ (0 : ℝ) ≠ 1 / 1000000000) := by
  refine ⟨?_, ?_, ?_⟩
  · intro a b h
    constructor
    · cases hv : a.val with
      | scalar x => simp [objEq, h, hv, Val.mapP, BVal.AllFalse, npIsinf]
      | array xs => simp [objEq, h, hv, Val.mapP, BVal.AllFalse, npIsinf]
    · cases hv : a.val with
      | scalar x => simp [objNe, h, hv, Val.mapP, BVal.AllTrue, npIsfinite]
      | array xs => simp [objNe, h, hv, Val.mapP, BVal.AllTrue, npIsfinite]
  · intro a b x y hk hx hy
    refine ⟨?_, Iff.rfl⟩
    simp [objEq, hk, hx, hy, Val.map2P]
  · constructor
    · show |(0 : ℝ) - 1 / 1000000000| ≤ 1 / 100000000 + (1 / 100000) * |(1 : ℝ) / 1000000000|
      rw [abs_of_nonpos (by norm_num), abs_of_nonneg (by norm_num)]
      norm_num
    · norm_num

/-- Witness for claim C3 at the inputs named by the specification:
Angle(10, deg) compared with Azimuth(10, deg). -/
theorem c3_equality_policy_witness :
    (objEq (Angle.ofDeg (.scalar 10)) (Azimuth.ofDeg (.scalar 10))).AllFalse
    ∧ (objNe (Angle.ofDeg (.scalar 10)) (Azimuth.ofDeg (.scalar 10))).AllTrue :=
  c3_equality_policy.1 (Angle.ofDeg (.scalar 10)) (Azimuth.ofDeg (.scalar 10))
    (by simp [Angle.ofDeg, Azimuth.ofDeg, mkAngleObj])

/-- Claim C9 (evaluation of the code): taking the length of a scalar
instance raises the claimed TypeError, but indexing or slicing a scalar
instance propagates the IndexError raised by the stored numpy scalar,
because the except TypeError clause of __getitem__ catches neither
IndexError nor AttributeError; on an array instance an in-range index or
any slice succeeds and returns a fresh instance of the same concrete
class over the selected sub-sequence. -/
theorem c9_scalar_array_eval :
    (∀ (a : AngleObj) (x : ℝ), a.val = .scalar x →
      getLen a = .error .typeError
      ∧ (∀ i, getItem a i = .error .indexError)
      ∧ (∀ s e, getSlice a s e = .error .indexError))
    ∧ (∀ (a : AngleObj) (xs : List ℝ), a.val = .array xs →
        a.val.Forall (inDomain a.kind) →
        getLen a = .ok xs.length
        ∧ (∀ (i : Nat) (h : i < xs.length),
            getItem a i = .ok ⟨a.kind, .scalar (xs.get ⟨i, h⟩)⟩)
        ∧ (∀ s e, getSlice a s e =
            .ok ⟨a.kind, .array ((xs.drop s).take (e - s))⟩)) := by
  constructor
  · intro a x hx
    exact ⟨by simp [getLen, hx], fun i => by simp [getItem, hx],
      fun s e => by simp [getSlice, hx]⟩
  · intro a xs hx hinv
    rw [hx] at hinv
    refine ⟨by simp [getLen, hx], fun i h => ?_, fun s e => ?_⟩
    · have hsel : (Val.scalar (xs.get ⟨i, h⟩)).Forall (inDomain a.kind) := by
        show inDomain a.kind (xs.get ⟨i, h⟩)
        exact hinv _ (xs.get_mem i h)
      simp only [getItem, hx, h, dif_pos]
      rw [show xs[i] = xs.get ⟨i, h⟩ from rfl, mkAngleObj_of_forall hsel]
    · have hsel : (Val.array ((xs.drop s).take (e - s))).Forall
          (inDomain a.kind) := by
        intro y hy
        exact hinv _ (List.drop_subset s xs (List.take_subset _ _ hy))
      simp only [getSlice, hx]
      rw [mkAngleObj_of_forall hsel]

/-- Witness for claim C9: a scalar Angle raises TypeError on len but
IndexError on index and slice, and an array Azimuth over [0, 1] supports
length, indexing and slicing. -/
theorem c9_scalar_array_eval_witness :
    getLen ⟨.angle, .scalar 0⟩ = .error .typeError
    ∧ getItem ⟨.angle, .scalar 0⟩ 0 = .error .indexError
    ∧ getSlice ⟨.angle, .scalar 0⟩ 0 1 = .error .indexError
    ∧ getLen ⟨.azimuth, .array [0, 1]⟩ = .ok 2
    ∧ getItem ⟨.azimuth, .array [0, 1]⟩ 0 = .ok ⟨.azimuth, .scalar 0⟩
    ∧ getSlice ⟨.azimuth, .array [0, 1]⟩ 0 1 =
        .ok ⟨.azimuth, .array [0]⟩ := by
  have hinv : (Val.array ([0, 1] : List ℝ)).Forall (inDomain .azimuth) := by
    intro x hx
    simp only [List.mem_cons, List.not_mem_nil, or_false] at hx
    have h3 := Real.pi_gt_three
    rcases hx with rfl | rfl <;> constructor <;> nlinarith
  have h1 := c9_scalar_array_eval.1 ⟨.angle, .scalar 0⟩ 0 rfl
  have h2 := c9_scalar_array_eval.2 ⟨.azimuth, .array [0, 1]⟩ [0, 1] rfl hinv
  refine ⟨h1.1, h1.2.1 0, h1.2.2 0 1, h2.1, ?_, ?_⟩
  · have := h2.2.1 0 (by norm_num)
    simpa using this
  · have := h2.2.2 0 1
    simpa using this

/-- Claim C4 (evaluation of the code at the failing input): the operators
never invoke the conversion documented in __coerce__, so
Angle(0) + Azimuth(pi) adds the raw radian value pi of the azimuth and
stores pi, while the documented conversion through to_angle would add the
angle equivalent -pi/2 of the azimuth and store -pi/2. -/
theorem c4_no_coercion_eval :
    (objAdd (Angle.ofRad (.scalar 0)) (Azimuth.ofRad (.scalar π))).val
      = .scalar π
    ∧ (objAdd (Angle.ofRad (.scalar 0))
        (to_angleObj (Azimuth.ofRad (.scalar π)))).val = .scalar (-(π / 2))
    ∧ (π : ℝ) ≠ -(π / 2) := by
  have hpi := Real.pi_pos
  have h0 : constrain180 0 = 0 :=
    constrain180_eq_self ⟨by linarith, by linarith⟩
  have hP : constrain180 π = π := constrain180_eq_self ⟨by linarith, le_refl π⟩
  have hzP : constrainKind .azimuth π = π := by
    rw [constrainKind_azimuth]
    exact constrain360_eq_self (by linarith) (by linarith)
  have hA : Angle.ofRad (.scalar 0) = ⟨.angle, .scalar 0⟩ := by
    simp [Angle.ofRad, mkAngleObj, Val.map, constrainKind, h0]
  have hZ : Azimuth.ofRad (.scalar π) = ⟨.azimuth, .scalar π⟩ := by
    simp [Azimuth.ofRad, mkAngleObj, Val.map, hzP]
  have hc32 : constrain360 (3 * π / 2) = 3 * π / 2 :=
    constrain360_eq_self (by linarith) (by linarith)
  have hmhalf : constrainKind .azimuth (π / 2 - π) = 3 * π / 2 := by
    rw [constrainKind_azimuth,
      show π / 2 - π = 3 * π / 2 - 2 * π by ring, constrain360_sub_two_pi, hc32]
  have hcomp : get_complementObj ⟨.azimuth, .scalar π⟩
      = ⟨.azimuth, .scalar (3 * π / 2)⟩ := by
    simp [get_complementObj, mkAngleObj, Val.map, hmhalf]
  have h32 : constrain180 (3 * π / 2) = -(π / 2) := by
    unfold constrain180
    rw [hc32, if_pos (by linarith)]
    ring
  have hToAngle : to_angleObj ⟨.azimuth, .scalar π⟩
      = ⟨.angle, .scalar (-(π / 2))⟩ := by
    simp [to_angleObj, hcomp, mkAngleObj, Val.map, constrainKind, h32]
  have hneg : constrain180 (-(π / 2)) = -(π / 2) :=
    constrain180_eq_self ⟨by linarith, by linarith⟩
  refine ⟨?_, ?_, by intro h; nlinarith⟩
  · rw [hA, hZ]
    simp [objAdd, opAdd, mkAngleObj, Val.map2, Val.map, constrainKind, hP]
  · rw [hA, hZ, hToAngle]
    simp [objAdd, opAdd, mkAngleObj, Val.map2, Val.map, constrainKind, hneg]

theorem constrainAz_deg2rad {d : ℝ} (h0 : 0 ≤ d) (h1 : d < 360) :
    constrainKind .azimuth (deg2rad d) = deg2rad d := by
  have hpi := Real.pi_pos
  rw [constrainKind_azimuth]
  refine constrain360_eq_self ?_ ?_
  · unfold deg2rad
    positivity
  · unfold deg2rad
    nlinarith

theorem rad2deg_deg2rad (d : ℝ) : rad2deg (deg2rad d) = d := by
  unfold rad2deg deg2rad
  field_simp

theorem getCardinal_ofDeg {d : ℝ} (h0 : 0 ≤ d) (h1 : d < 360) :
    getCardinal (Azimuth.ofDeg (.scalar d)) = .ok (get_cardinal_direction d) := by
  have hv : Azimuth.ofDeg (.scalar d) = ⟨.azimuth, .scalar (deg2rad d)⟩ := by
    simp [Azimuth.ofDeg, mkAngleObj, Val.map, constrainAz_deg2rad h0 h1]
  rw [hv]
  simp [getCardinal, rad2deg_deg2rad]

/-- Claim C2 (evaluation of the code at the failing input): the classifier
agrees with the claim at 0, 45, 33.75 and 33.74 degrees, but at 285
degrees the W branch of the source, whose upper bound reads 291.25 where
the sixteen 22.5-degree sectors require 281.25, classifies the azimuth as
W although the claimed WNW sector (281.25, 303.75) contains 285. -/
theorem c2_cardinal_code_eval :
    getCardinal (Azimuth.ofDeg (.scalar 0)) = .ok "N"
    ∧ getCardinal (Azimuth.ofDeg (.scalar 45)) = .ok "NE"
    ∧ getCardinal (Azimuth.ofDeg (.scalar 33.75)) = .ok "NE"
    ∧ getCardinal (Azimuth.ofDeg (.scalar 33.74)) = .ok "NNE"
    ∧ getCardinal (Azimuth.ofDeg (.scalar 285)) = .ok "W" := by
  refine ⟨?_, ?_, ?_, ?_, ?_⟩ <;>
  · rw [getCardinal_ofDeg (by norm_num) (by norm_num)]
    norm_num [get_cardinal_direction]

/-- Claim C10: on array-valued operands of the same concrete class the
equality and inequality operators return one truth value per element,
comparing element-wise under the closeness tolerance, and the result has
the common length of the operands. -/
theorem c10_elementwise_equality :
    ∀ (a b : AngleObj) (xs ys : List ℝ), a.kind = b.kind →
      a.val = .array xs → b.val = .array ys → xs.length = ys.length →
      objEq a b = .arrayB (List.zipWith npIsclose xs ys)
      ∧ objNe a b = .arrayB (List.zipWith (fun x y => ¬npIsclose x y) xs ys)
      ∧ (List.zipWith npIsclose xs ys).length = xs.length := by
  intro a b xs ys hk hx hy hlen
  refine ⟨?_, ?_, ?_⟩
  · simp [objEq, hk, hx, hy, Val.map2P]
  · simp [objNe, hk, hx, hy, Val.map2P]
  · rw [List.length_zipWith, ← hlen, min_self]

/-- Witness for claim C10 on two Angle arrays of length two. -/
theorem c10_elementwise_equality_witness :
    objEq ⟨.angle, .array [0, 1]⟩ ⟨.angle, .array [0, 2]⟩
      = .arrayB (List.zipWith npIsclose [0, 1] [0, 2])
    ∧ (List.zipWith npIsclose ([0, 1] : List ℝ) [0, 2]).length = 2 := by
  have h := c10_elementwise_equality ⟨.angle, .array [0, 1]⟩
    ⟨.angle, .array [0, 2]⟩ [0, 1] [0, 2] rfl rfl rfl rfl
  exact ⟨h.1, h.2.2⟩

theorem list_zipWith_one_mul :
    ∀ ys : List ℝ,
      List.zipWith (fun a b => a * b) (List.replicate ys.length 1) ys = ys
  | [] => rfl
  | y :: t => by
      simp only [List.length_cons, List.replicate_succ, List.zipWith_cons_cons,
        one_mul, list_zipWith_one_mul t]

theorem npAverage_uniform (ys ws : List ℝ)
    (h : ws = List.replicate ys.length 1) :
    npAverage ys (some ws) = npAverage ys none := by
  subst h
  show (List.zipWith (fun a b => a * b) (List.replicate ys.length 1) ys).sum
      / (List.replicate ys.length 1).sum = ys.sum / (ys.length : ℝ)
  rw [list_zipWith_one_mul]
  congr 1
  simp [List.sum_replicate]

/-- Claim C5: on an array-valued instance the circular mean returns a new
instance of the same concrete class whose radian value is the arctan2 of
the (optionally weighted) mean of the sines and the mean of the cosines,
constrained to the domain of the class; omitting the weights is
equivalent to uniform weights; and the mean of the azimuths 350 and 10
degrees is exactly 0, not 180 degrees. -/
theorem c5_circular_mean :
    (∀ (a : AngleObj) (xs : List ℝ) (w : Option (List ℝ)), a.val = .array xs →
      (meanObj a w).kind = a.kind
      ∧ (meanObj a w).val = .scalar (constrainKind a.kind
          (atan2 (npAverage (xs.map Real.sin) w)
                 (npAverage (xs.map Real.cos) w)))
      ∧ (meanObj a w).val.Forall (inDomain a.kind))
    ∧ (∀ (a : AngleObj) (xs : List ℝ), a.val = .array xs →
        meanObj a none = meanObj a (some (List.replicate xs.length 1)))
    ∧ (meanObj (Azimuth.ofDeg (.array [350, 10])) none).val = .scalar 0 := by
  have hpi := Real.pi_pos
  refine ⟨?_, ?_, ?_⟩
  · intro a xs w hx
    obtain ⟨k, v⟩ := a
    dsimp only at hx
    subst hx
    exact ⟨rfl, rfl, mkAngleObj_forall _ _⟩
  · intro a xs hx
    obtain ⟨k, v⟩ := a
    dsimp only at hx
    subst hx
    show mkAngleObj k _ = mkAngleObj k _
    rw [npAverage_uniform (xs.map Real.sin) _ (by simp),
      npAverage_uniform (xs.map Real.cos) _ (by simp)]
  · have h350 : constrainKind .azimuth (deg2rad 350) = deg2rad 350 :=
      constrainAz_deg2rad (by norm_num) (by norm_num)
    have h10 : constrainKind .azimuth (deg2rad 10) = deg2rad 10 :=
      constrainAz_deg2rad (by norm_num) (by norm_num)
    have hobj : Azimuth.ofDeg (.array [350, 10])
        = ⟨.azimuth, .array [deg2rad 350, deg2rad 10]⟩ := by
      simp [Azimuth.ofDeg, mkAngleObj, Val.map, h350, h10]
    have hrw : deg2rad 350 = 2 * π - deg2rad 10 := by
      unfold deg2rad
      ring
    have hsin : Real.sin (deg2rad 350) = -Real.sin (deg2rad 10) := by
      rw [hrw, Real.sin_sub, Real.sin_two_pi, Real.cos_two_pi]
      ring
    have hcos : Real.cos (deg2rad 350) = Real.cos (deg2rad 10) := by
      rw [hrw, Real.cos_sub, Real.sin_two_pi, Real.cos_two_pi]
      ring
    have havg : ∀ u v : ℝ, npAverage [u, v] none = (u + v) / 2 := by
      intro u v
      simp [npAverage]
    have hc : 0 < Real.cos (deg2rad 10) := by
      apply Real.cos_pos_of_mem_Ioo
      constructor
      · unfold deg2rad
        nlinarith
      · unfold deg2rad
        nlinarith
    have hat : atan2 ((-Real.sin (deg2rad 10) + Real.sin (deg2rad 10)) / 2)
        ((Real.cos (deg2rad 10) + Real.cos (deg2rad 10)) / 2) = 0 := by
      rw [show (-Real.sin (deg2rad 10) + Real.sin (deg2rad 10)) / 2 = 0 by ring,
        show (Real.cos (deg2rad 10) + Real.cos (deg2rad 10)) / 2
          = Real.cos (deg2rad 10) by ring]
      unfold atan2
      rw [if_pos hc, zero_div, Real.arctan_zero]
    have hz : constrainKind .azimuth 0 = 0 := by
      rw [constrainKind_azimuth]
      exact constrain360_eq_self (le_refl 0) Real.two_pi_pos
    rw [hobj]
    show (mkAngleObj .azimuth (.scalar (atan2
        (npAverage ([deg2rad 350, deg2rad 10].map Real.sin) none)
        (npAverage ([deg2rad 350, deg2rad 10].map Real.cos) none)))).val
      = .scalar 0
    simp only [List.map_cons, List.map_nil]
    rw [havg, havg, hsin, hcos, hat]
    simp [mkAngleObj, Val.map, hz]

/-- Witness for claim C5 on a one-element Azimuth array. -/
theorem c5_circular_mean_witness :
    (meanObj ⟨.azimuth, .array [0]⟩ none).kind = .azimuth
    ∧ meanObj ⟨.azimuth, .array [0]⟩ none
        = meanObj ⟨.azimuth, .array [0]⟩ (some (List.replicate 1 1)) := by
  have h1 := (c5_circular_mean.1 ⟨.azimuth, .array [0]⟩ [0] none rfl).1
  have h2 := c5_circular_mean.2.1 ⟨.azimuth, .array [0]⟩ [0] rfl
  exact ⟨h1, h2⟩

theorem list_map_zipWith (f : ℝ → ℝ) (g : ℝ → ℝ → ℝ) :
    ∀ xs ys : List ℝ,
      (List.zipWith g xs ys).map f = List.zipWith (fun x y => f (g x y)) xs ys
  | [], _ => rfl
  | _ :: _, [] => rfl
  | x :: xs, y :: ys => by
      simp only [List.zipWith_cons_cons, List.map_cons,
        list_map_zipWith f g xs ys]

theorem list_zipWith_comm (g : ℝ → ℝ → ℝ) :
    ∀ xs ys : List ℝ,
      List.zipWith g xs ys = List.zipWith (fun x y => g y x) ys xs
  | [], [] => rfl
  | [], _ :: _ => rfl
  | _ :: _, [] => rfl
  | x :: xs, y :: ys => by
      simp only [List.zipWith_cons_cons, list_zipWith_comm g xs ys]

theorem list_zipWith_zipWith (h f g : ℝ → ℝ → ℝ) :
    ∀ xs ys : List ℝ,
      List.zipWith h (List.zipWith f xs ys) (List.zipWith g xs ys)
        = List.zipWith (fun x y => h (f x y) (g x y)) xs ys
  | [], _ => rfl
  | _ :: _, [] => rfl
  | x :: xs, y :: ys => by
      simp only [List.zipWith_cons_cons, list_zipWith_zipWith h f g xs ys]

theorem list_zipWith_map_same (h : ℝ → ℝ → ℝ) (p q : ℝ → ℝ) :
    ∀ ys : List ℝ,
      List.zipWith h (ys.map p) (ys.map q) = ys.map (fun y => h (p y) (q y))
  | [] => rfl
  | y :: t => by
      simp only [List.map_cons, List.zipWith_cons_cons,
        list_zipWith_map_same h p q t]

theorem Val.map_map (f g : ℝ → ℝ) (v : Val) :
    (v.map g).map f = v.map (fun x => f (g x)) := by
  cases v with
  | scalar x => rfl
  | array xs => simp [Val.map, List.map_map, Function.comp]

theorem Val.map_map2 (f : ℝ → ℝ) (g : ℝ → ℝ → ℝ) (v w : Val) :
    (Val.map2 g v w).map f = Val.map2 (fun x y => f (g x y)) v w := by
  cases v <;> cases w <;>
    simp [Val.map, Val.map2, List.map_map, Function.comp, list_map_zipWith]

theorem Val.map2_swap (g : ℝ → ℝ → ℝ) (v w : Val) :
    Val.map2 g w v = Val.map2 (fun x y => g y x) v w := by
  cases v <;> cases w <;> simp [Val.map2]
  exact list_zipWith_comm g _ _

theorem Val.map2_map2 (h f g : ℝ → ℝ → ℝ) (v w : Val) :
    Val.map2 h (Val.map2 f v w) (Val.map2 g v w)
      = Val.map2 (fun x y => h (f x y) (g x y)) v w := by
  cases v <;> cases w <;>
    simp [Val.map2, list_zipWith_map_same, list_zipWith_zipWith]

theorem list_zipWith_forall {p : ℝ → Prop} {f : ℝ → ℝ → ℝ}
    (h : ∀ x y, p (f x y)) :
    ∀ xs ys : List ℝ, ∀ z ∈ List.zipWith f xs ys, p z
  | [], _, z, hz => by simp at hz
  | _ :: _, [], z, hz => by simp at hz
  | x :: xs, y :: ys, z, hz => by
      rw [List.zipWith_cons_cons] at hz
      rcases List.mem_cons.1 hz with rfl | hz
      · exact h x y
      · exact list_zipWith_forall h xs ys z hz

theorem Val.Forall_map2 {p : ℝ → Prop} {f : ℝ → ℝ → ℝ}
    (h : ∀ x y, p (f x y)) (v w : Val) : (Val.map2 f v w).Forall p := by
  cases v with
  | scalar x =>
      cases w with
      | scalar y => exact h x y
      | array ys =>
          intro z hz
          rcases List.mem_map.1 hz with ⟨y, _, rfl⟩
          exact h _ _
  | array xs =>
      cases w with
      | scalar y =>
          intro z hz
          rcases List.mem_map.1 hz with ⟨x, _, rfl⟩
          exact h _ _
      | array ys => exact list_zipWith_forall h xs ys

theorem constrain360_neg_eq_zero {x : ℝ} (h : constrain360 x = 0) :
    constrain360 (-x) = 0 := by
  rw [constrain360_eq_fract] at h ⊢
  have hf : Int.fract (x / (2 * π)) = 0 :=
    (mul_eq_zero.1 h).resolve_left Real.two_pi_pos.ne'
  rw [show -x / (2 * π) = -(x / (2 * π)) by ring,
    Int.fract_neg_eq_zero.2 hf, mul_zero]

theorem constrain360_neg {x : ℝ} (h : constrain360 x ≠ 0) :
    constrain360 (-x) = 2 * π - constrain360 x := by
  have hf : Int.fract (x / (2 * π)) ≠ 0 := by
    intro h0
    apply h
    rw [constrain360_eq_fract, h0, mul_zero]
  rw [constrain360_eq_fract, constrain360_eq_fract,
    show -x / (2 * π) = -(x / (2 * π)) by ring, Int.fract_neg hf]
  ring

theorem enclosed_elt_bounds (k : AngleKind) (u : ℝ) :
    0 ≤ min |constrainKind k u| |constrainKind k (-u)|
    ∧ min |constrainKind k u| |constrainKind k (-u)| ≤ π := by
  have hpi := Real.pi_pos
  refine ⟨le_min (abs_nonneg _) (abs_nonneg _), ?_⟩
  cases k with
  | angle =>
      obtain ⟨l1, r1⟩ := constrain180_mem u
      calc min |constrainKind .angle u| |constrainKind .angle (-u)|
            ≤ |constrainKind .angle u| := min_le_left _ _
        _ ≤ π := abs_le.2 ⟨by exact le_of_lt l1, r1⟩
  | azimuth =>
      rw [constrainKind_azimuth, constrainKind_azimuth]
      obtain ⟨l1, r1⟩ := constrain360_mem u
      obtain ⟨l2, r2⟩ := constrain360_mem (-u)
      rw [abs_of_nonneg l1, abs_of_nonneg l2]
      by_cases hz : constrain360 u = 0
      · calc min (constrain360 u) (constrain360 (-u))
              ≤ constrain360 u := min_le_left _ _
          _ ≤ π := by rw [hz]; linarith
      · rw [constrain360_neg hz]
        rcases le_or_lt (constrain360 u) π with hle | hgt
        · exact le_trans (min_le_left _ _) hle
        · exact le_trans (min_le_right _ _) (by linarith)

theorem enclosed_elt_bounds2 (k : AngleKind) (x y : ℝ) :
    0 ≤ min |constrainKind k (x - y)| |constrainKind k (y - x)|
    ∧ min |constrainKind k (x - y)| |constrainKind k (y - x)| ≤ π := by
  have h := enclosed_elt_bounds k (x - y)
  rw [neg_sub] at h
  exact h

theorem enclosed_elt_abs_constrain (k : AngleKind) (u : ℝ) :
    constrainKind k |constrainKind k u| = |constrainKind k u| := by
  have hpi := Real.pi_pos
  apply constrainKind_eq_self
  cases k with
  | angle =>
      obtain ⟨l, r⟩ := constrain180_mem u
      exact ⟨lt_of_lt_of_le (by linarith) (abs_nonneg _),
        abs_le.2 ⟨le_of_lt l, r⟩⟩
  | azimuth =>
      rw [constrainKind_azimuth]
      obtain ⟨l, r⟩ := constrain360_mem u
      rw [abs_of_nonneg l]
      exact ⟨l, r⟩

theorem enclosed_elt_constrain (k : AngleKind) (x y : ℝ) :
    constrainKind k (min |constrainKind k (x - y)| |constrainKind k (y - x)|)
      = min |constrainKind k (x - y)| |constrainKind k (y - x)| := by
  have hpi := Real.pi_pos
  obtain ⟨h0, h1⟩ := enclosed_elt_bounds2 k x y
  apply constrainKind_eq_self
  cases k with
  | angle => exact ⟨by linarith, h1⟩
  | azimuth => exact ⟨h0, by linarith⟩

/-- Claim C6: for two instances of the same concrete class the enclosed
angle is symmetric in its operands, every component of its value lies in
[0, pi], and its value equals the element-wise minimum of the absolute
values of the two domain-constrained differences self - other and
other - self. -/
theorem c6_enclosed_angle (a b : AngleObj) (hk : a.kind = b.kind) :
    get_enclosed_angleObj a b = get_enclosed_angleObj b a
    ∧ (get_enclosed_angleObj a b).val.Forall (fun z => 0 ≤ z ∧ z ≤ π)
    ∧ (get_enclosed_angleObj a b).val
        = Val.map2 min (((objSub a b).val).map (fun z => |z|))
            (((objSub b a).val).map (fun z => |z|)) := by
  obtain ⟨ka, va⟩ := a
  obtain ⟨kb, vb⟩ := b
  dsimp only at hk
  subst hk
  have hnorm : ∀ v w : Val,
      (get_enclosed_angleObj ⟨ka, v⟩ ⟨ka, w⟩).val
        = Val.map2 (fun x y =>
            min |constrainKind ka (x - y)| |constrainKind ka (y - x)|) v w := by
    intro v w
    simp only [get_enclosed_angleObj, objAbs, objSub, opSub, mkAngleObj]
    rw [Val.map2_swap (fun x y => x - y) v w]
    simp only [Val.map_map2, Val.map2_map2, enclosed_elt_abs_constrain,
      enclosed_elt_constrain]
  have hcomm : (fun x y : ℝ =>
        min |constrainKind ka (y - x)| |constrainKind ka (x - y)|)
      = fun x y =>
        min |constrainKind ka (x - y)| |constrainKind ka (y - x)| := by
    funext x y
    exact min_comm _ _
  refine ⟨?_, ?_, ?_⟩
  · have hv : (get_enclosed_angleObj ⟨ka, va⟩ ⟨ka, vb⟩).val
        = (get_enclosed_angleObj ⟨ka, vb⟩ ⟨ka, va⟩).val := by
      rw [hnorm va vb, hnorm vb va,
        Val.map2_swap (fun x y =>
          min |constrainKind ka (x - y)| |constrainKind ka (y - x)|) va vb,
        hcomm]
    calc get_enclosed_angleObj ⟨ka, va⟩ ⟨ka, vb⟩
        = ⟨ka, (get_enclosed_angleObj ⟨ka, va⟩ ⟨ka, vb⟩).val⟩ := rfl
      _ = ⟨ka, (get_enclosed_angleObj ⟨ka, vb⟩ ⟨ka, va⟩).val⟩ := by rw [hv]
      _ = get_enclosed_angleObj ⟨ka, vb⟩ ⟨ka, va⟩ := rfl
  · rw [hnorm va vb]
    exact Val.Forall_map2 (fun x y => enclosed_elt_bounds2 ka x y) va vb
  · rw [hnorm va vb]
    simp only [objSub, opSub, mkAngleObj]
    rw [Val.map2_swap (fun x y => x - y) va vb]
    simp only [Val.map_map2, Val.map2_map2]

/-- Witness for claim C6 on the scalar angles 0 and 1 radian. -/
theorem c6_enclosed_angle_witness :
    get_enclosed_angleObj ⟨.angle, .scalar 0⟩ ⟨.angle, .scalar 1⟩
      = get_enclosed_angleObj ⟨.angle, .scalar 1⟩ ⟨.angle, .scalar 0⟩
    ∧ (get_enclosed_angleObj ⟨.angle, .scalar 0⟩ ⟨.angle, .scalar 1⟩).val.Forall
        (fun z => 0 ≤ z ∧ z ≤ π) := by
  have h := c6_enclosed_angle ⟨.angle, .scalar 0⟩ ⟨.angle, .scalar 1⟩ rfl
  exact ⟨h.1, h.2.1⟩

/-- Claim C8 counterexample: the azimuth 5*pi/4 (225 degrees) exceeds pi,
so toDirectionEast returns its complement, which re-constrains to 5*pi/4
itself: the result does not lie in the eastern half-plane [0, pi]. -/
theorem c8_east_facing_counterexample :
    toDirectionEast (Azimuth.ofRad (.scalar (5 * π / 4)))
      = .ok ⟨.azimuth, .scalar (5 * π / 4)⟩
    ∧ ¬(5 * π / 4 ≤ π) := by
  have hpi := Real.pi_pos
  have h54 : constrainKind .azimuth (5 * π / 4) = 5 * π / 4 := by
    rw [constrainKind_azimuth]
    exact constrain360_eq_self (by linarith) (by linarith)
  have hZ : Azimuth.ofRad (.scalar (5 * π / 4))
      = ⟨.azimuth, .scalar (5 * π / 4)⟩ := by
    simp [Azimuth.ofRad, mkAngleObj, Val.map, h54]
  have hcompval : constrainKind .azimuth (π / 2 - 5 * π / 4) = 5 * π / 4 := by
    rw [constrainKind_azimuth,
      show π / 2 - 5 * π / 4 = 5 * π / 4 - 2 * π by ring,
      constrain360_sub_two_pi]
    exact constrain360_eq_self (by linarith) (by linarith)
  constructor
  · rw [hZ]
    simp only [toDirectionEast]
    rw [if_pos (by linarith)]
    simp [get_complementObj, mkAngleObj, Val.map, hcompval]
  · push_neg
    linarith

/-- Claim C8 amended: toDirectionEast returns the azimuth unchanged when
its value does not exceed pi, and its re-constrained complement
constrain360 (pi/2 - value) when the value exceeds pi; the result lies in
the eastern half-plane [0, pi] only in the unchanged branch, while in the
complement branch it lies in the interval (pi/2, 3*pi/2) and need not be
east-facing. -/
theorem c8_east_facing_amended (v : ℝ) (h0 : 0 ≤ v) (h2 : v < 2 * π) :
    (v ≤ π → toDirectionEast ⟨.azimuth, .scalar v⟩ = .ok ⟨.azimuth, .scalar v⟩
      ∧ v ∈ Set.Icc 0 π)
    ∧ (π < v →
        toDirectionEast ⟨.azimuth, .scalar v⟩
          = .ok ⟨.azimuth, .scalar (constrain360 (π / 2 - v))⟩
        ∧ constrain360 (π / 2 - v) ∈ Set.Ioo (π / 2) (3 * π / 2)) := by
  have hpi := Real.pi_pos
  constructor
  · intro hle
    refine ⟨?_, h0, hle⟩
    simp only [toDirectionEast]
    rw [if_neg (not_lt.2 hle)]
  · intro hgt
    have hc : constrain360 (π / 2 - v) = π / 2 - v + 2 * π := by
      calc constrain360 (π / 2 - v)
          = constrain360 (π / 2 - v + 2 * π) := (constrain360_add_two_pi _).symm
        _ = π / 2 - v + 2 * π :=
            constrain360_eq_self (by linarith) (by linarith)
    have hck : constrainKind .azimuth (π / 2 - v) = constrain360 (π / 2 - v) :=
      constrainKind_azimuth _
    constructor
    · simp only [toDirectionEast]
      rw [if_pos hgt]
      simp [get_complementObj, mkAngleObj, Val.map, hck]
    · rw [hc]
      constructor <;> linarith

/-- Witness for the amended claim C8 at the azimuth 3*pi/2. -/
theorem c8_east_facing_amended_witness :
    toDirectionEast ⟨.azimuth, .scalar (3 * π / 2)⟩
      = .ok ⟨.azimuth, .scalar (constrain360 (π / 2 - 3 * π / 2))⟩
    ∧ constrain360 (π / 2 - 3 * π / 2) ∈ Set.Ioo (π / 2) (3 * π / 2) :=
  (c8_east_facing_amended (3 * π / 2) (by positivity)
    (by linarith [Real.pi_pos])).2 (by linarith [Real.pi_pos])

/-- Claim C7 counterexample: constructing the angle from the well-formed
tuple (-10, 30, 0) stores -10.5 degrees as radians, but dms() reads back
(-11, 30, 0) because the decomposition applies floor to the negative
degree value, and converting that tuple forward gives -11.5 degrees: the
round trip does not reproduce the stored radian value. -/
theorem c7_dms_roundtrip_counterexample :
    (Angle.ofDms (-10, 30, 0)).val = .scalar (-10.5 * (π / 180))
    ∧ radToDms (-10.5 * (π / 180)) = (-11, 30, 0)
    ∧ dms2rad (-11, 30, 0) = -11.5 * (π / 180)
    ∧ -11.5 * (π / 180) ≠ -10.5 * (π / 180) := by
  have hpi := Real.pi_pos
  have h1 : dms2rad (-10, 30, 0) = -10.5 * (π / 180) := by
    unfold dms2rad npSign
    norm_num
  have hid : constrain180 (-10.5 * (π / 180)) = -10.5 * (π / 180) := by
    apply constrain180_eq_self
    constructor <;> nlinarith
  have hdeg : rad2deg (-10.5 * (π / 180)) = -10.5 := by
    unfold rad2deg
    field_simp
    ring
  have hfl : ⌊(-10.5 : ℝ)⌋ = (-11 : ℤ) := by
    rw [Int.floor_eq_iff]
    norm_num
  have hfl30 : ⌊(30 : ℝ)⌋ = (30 : ℤ) := by
    rw [Int.floor_eq_iff]
    norm_num
  have hdm : radToDm (-10.5 * (π / 180)) = (-11, 30) := by
    simp only [radToDm, hdeg, hfl]
    norm_num
  have hdms : radToDms (-10.5 * (π / 180)) = (-11, 30, 0) := by
    simp only [radToDms, hdm, hfl30]
    norm_num
  have h2 : dms2rad (-11, 30, 0) = -11.5 * (π / 180) := by
    unfold dms2rad npSign
    norm_num
  refine ⟨?_, hdms, h2, ?_⟩
  · show Val.scalar (constrain180 (dms2rad (-10, 30, 0))) = _
    rw [h1, hid]
  · intro h
    nlinarith

/-- Claim C7 amended: for a well-formed sexagesimal tuple whose degree
component is a non-negative integer, with minutes in [0, 60), seconds in
[0, 60) and total magnitude at most 180 degrees, constructing the Angle
and reading it back through dms() or dm() yields tuples whose forward
conversions dms2rad and dm2rad reproduce the stored radian value exactly;
for negative degree components the floor-based decomposition shifts the
value, as the counterexample shows. -/
theorem c7_dms_roundtrip_amended (d : ℕ) (m s : ℝ)
    (hm0 : 0 ≤ m) (hm : m < 60) (hs0 : 0 ≤ s) (hs : s < 60)
    (hA : (d : ℝ) + m / 60 + s / 3600 ≤ 180) :
    (Angle.ofDms ((d : ℝ), m, s)).val
      = .scalar (constrain180 (dms2rad ((d : ℝ), m, s)))
    ∧ dms2rad (radToDms (constrain180 (dms2rad ((d : ℝ), m, s))))
      = constrain180 (dms2rad ((d : ℝ), m, s))
    ∧ dm2rad (radToDm (constrain180 (dms2rad ((d : ℝ), m, s))))
      = constrain180 (dms2rad ((d : ℝ), m, s)) := by
  have hpi := Real.pi_pos
  refine ⟨rfl, ?_⟩
  rcases Nat.eq_zero_or_pos d with rfl | hd
  · simp only [Nat.cast_zero]
    have hz : dms2rad (0, m, s) = 0 := by
      unfold dms2rad npSign
      norm_num
    have hc0 : constrain180 (0 : ℝ) = 0 :=
      constrain180_eq_self ⟨by linarith, by linarith⟩
    have hdeg0 : rad2deg 0 = 0 := by
      unfold rad2deg
      ring
    have hdm0 : radToDm 0 = (0, 0) := by
      simp only [radToDm, hdeg0, Int.floor_zero]
      norm_num
    have hdms0 : radToDms 0 = (0, 0, 0) := by
      simp only [radToDms, hdm0, Int.floor_zero]
      norm_num
    rw [hz, hc0, hdms0, hdm0]
    constructor
    · unfold dms2rad npSign
      norm_num
    · unfold dm2rad dms2rad npSign
      norm_num
  · have hd1 : (1 : ℝ) ≤ (d : ℝ) := by
      exact_mod_cast hd
    obtain ⟨A, hAdef⟩ : ∃ A : ℝ, A = (d : ℝ) + m / 60 + s / 3600 := ⟨_, rfl⟩
    rw [← hAdef] at hA
    have hA1 : (1 : ℝ) ≤ A := by
      rw [hAdef]
      have : 0 ≤ m / 60 := by positivity
      have : 0 ≤ s / 3600 := by positivity
      linarith
    have hsign : npSign (d : ℝ) = 1 := by
      unfold npSign
      rw [if_neg (by linarith), if_neg (by linarith)]
    have habs : |(d : ℝ)| = (d : ℝ) := abs_of_nonneg (by linarith)
    have hforward : dms2rad ((d : ℝ), m, s) = A * (π / 180) := by
      unfold dms2rad
      dsimp only
      rw [hsign, habs, hAdef]
      ring
    have hvmem : A * (π / 180) ∈ Set.Ioc (-π) π := by
      have hApos : 0 < A * (π / 180) :=
        mul_pos (by linarith) (by positivity)
      constructor
      · linarith
      · nlinarith [mul_nonneg (by linarith : (0 : ℝ) ≤ 180 - A) hpi.le]
    have hv : constrain180 (dms2rad ((d : ℝ), m, s)) = A * (π / 180) := by
      rw [hforward]
      exact constrain180_eq_self hvmem
    have hAdeg : rad2deg (A * (π / 180)) = A := by
      unfold rad2deg
      field_simp
    have hfl_le := Int.floor_le A
    have hfl_lt := Int.lt_floor_add_one A
    have hflZ : (1 : ℤ) ≤ ⌊A⌋ := Int.le_floor.2 (by exact_mod_cast hA1)
    have hflR : (1 : ℝ) ≤ (⌊A⌋ : ℝ) := by
      exact_mod_cast hflZ
    have hms : |A * 100 - (⌊A⌋ : ℝ) * 100| * (60 / 100)
        = (A - (⌊A⌋ : ℝ)) * 60 := by
      rw [abs_of_nonneg (by nlinarith)]
      ring
    have hdm : radToDm (A * (π / 180)) = ((⌊A⌋ : ℝ), (A - (⌊A⌋ : ℝ)) * 60) := by
      simp only [radToDm, hAdeg]
      rw [hms]
    have hdms : radToDms (A * (π / 180))
        = ((⌊A⌋ : ℝ), ((⌊(A - (⌊A⌋ : ℝ)) * 60⌋ : ℤ) : ℝ),
            ((A - (⌊A⌋ : ℝ)) * 60 - ((⌊(A - (⌊A⌋ : ℝ)) * 60⌋ : ℤ) : ℝ)) * 60) := by
      simp only [radToDms, hdm]
    have hsign2 : npSign ((⌊A⌋ : ℤ) : ℝ) = 1 := by
      unfold npSign
      rw [if_neg (by linarith), if_neg (by linarith)]
    have habs2 : |((⌊A⌋ : ℤ) : ℝ)| = ((⌊A⌋ : ℤ) : ℝ) :=
      abs_of_nonneg (by linarith)
    constructor
    · rw [hv, hdms]
      unfold dms2rad
      dsimp only
      rw [hsign2, habs2]
      ring
    · rw [hv, hdm]
      unfold dm2rad dms2rad
      dsimp only
      rw [hsign2, habs2]
      ring

/-- Witness for the amended claim C7 at the tuple (10, 30, 0), the
scenario named by the specification. -/
theorem c7_dms_roundtrip_amended_witness :
    dms2rad (radToDms (constrain180 (dms2rad (((10 : ℕ) : ℝ), 30, 0))))
      = constrain180 (dms2rad (((10 : ℕ) : ℝ), 30, 0))
    ∧ dm2rad (radToDm (constrain180 (dms2rad (((10 : ℕ) : ℝ), 30, 0))))
      = constrain180 (dms2rad (((10 : ℕ) : ℝ), 30, 0)) :=
  (c7_dms_roundtrip_amended 10 30 0 (by norm_num) (by norm_num) (by norm_num)
    (by norm_num) (by norm_num)).2

end
